import Mathlib

/-!
Shallow embedding of the Bard playback-position-to-context engine.

Source modules embedded here:
* `src/bard/database.py`  — sentence store queries (`find_sentence_at_time`,
  `get_context_sentences`): the SQLite table `sentences` is modelled as a
  `List Sentence` (rows in insertion order); SQL `WHERE` clauses become
  `List.filter` with SQL three-valued logic for `NULL` columns (a comparison
  against a `NULL` column never selects the row); `ORDER BY k DESC/ASC LIMIT 1`
  becomes a first-maximal / first-minimal selection; `ORDER BY chapter_id,
  sequence` becomes a stable insertion sort on that lexicographic key.
* `src/bard/services/context.py` — `resolve_current_sentence`, `build_context`,
  `truncate_to_tokens`, `get_context_stats`.  Text is modelled as `List Char`;
  Python `str.find`, slicing, `" ".join` and `str.strip` are given explicit
  models below.  The `tiktoken` encoding is an external collaborator and is
  modelled as an injected capability (`TikEncoding`) with an executable
  character-level stand-in (`charEncoding`) used for concrete evaluation.
* `src/bard/api/routes/qa.py` — the `ask_question` route, with the two
  external collaborator calls (LLM generation, speech synthesis) injected as
  `Except` outcomes and Python exception classes modelled by `PyErr`.
-/

/-- Row of the `sentences` table (`src/bard/models.py`, `Sentence`).
`start_time` / `end_time` are the nullable alignment columns. -/
structure Sentence where
  sentence_id : Int
  chapter_id : Int
  sequence : Int
  text : List Char
  start_time : Option Rat
  end_time : Option Rat
deriving DecidableEq, Repr

/-- Python whitespace characters stripped by `str.strip()`. -/
def wsChar (c : Char) : Bool :=
  c == ' ' || c == '\t' || c == '\n' || c == '\r' || c == '\x0b' || c == '\x0c'

/-- Model of Python `str.strip()`: drop leading and trailing whitespace. -/
def pyStrip (s : List Char) : List Char :=
  ((s.dropWhile wsChar).reverse.dropWhile wsChar).reverse

/-- Model of Python `" ".join(parts)`. -/
def joinSp : List (List Char) → List Char
  | [] => []
  | [x] => x
  | x :: xs => x ++ ' ' :: joinSp xs

/-- Model of Python `str.find(sub)`: index of the first occurrence of `sub`,
`none` standing for Python's `-1`. -/
def findSub (sub : List Char) : List Char → Option Nat
  | [] => if sub.isEmpty then some 0 else none
  | c :: rest =>
    if sub.isPrefixOf (c :: rest) then some 0
    else (findSub sub rest).map (· + 1)

/-- Model of the Python slice `l[-n:]` (note `l[-0:]` is the whole list). -/
def pySliceLast (l : List Nat) (n : Nat) : List Nat :=
  if n = 0 then l else l.drop (l.length - n)

/-- Tokenizer interface of the external `tiktoken` collaborator:
`encode` a text to a token list, `decode` a token list back to text. -/
structure TikEncoding where
  encode : List Char → List Nat
  decode : List Nat → List Char

/-- Executable character-level stand-in for the external tiktoken encoding
(per the spec's design note, the tokenizer is an injected capability and a
trivial stand-in may replace it): every character is one token. -/
def charEncoding : TikEncoding where
  encode s := s.map Char.toNat
  decode ts := ts.map Char.ofNat

/- ### Database layer (`src/bard/database.py`) -/

/-- Model of `ORDER BY key DESC LIMIT 1`: the first element carrying the
maximal key (SQLite's stable order among equal keys refined to list order). -/
def selectFirstMax (key : Sentence → Rat) : List Sentence → Option Sentence
  | [] => none
  | s :: rest =>
    match selectFirstMax key rest with
    | none => some s
    | some m => if key m ≤ key s then some s else some m

/-- Model of `ORDER BY key LIMIT 1`: the first element carrying the minimal
key. -/
def selectFirstMin (key : Sentence → Int) : List Sentence → Option Sentence
  | [] => none
  | s :: rest =>
    match selectFirstMin key rest with
    | none => some s
    | some m => if key s ≤ key m then some s else some m

/-- First query of `find_sentence_at_time`:
`chapter_id = ? AND start_time <= ? AND end_time >= ?` (a `NULL` column never
satisfies a SQL comparison). -/
def matchesContainment (chapter_id : Int) (audio_time : Rat) (s : Sentence) : Bool :=
  decide (s.chapter_id = chapter_id) &&
    (match s.start_time, s.end_time with
     | some a, some b => decide (a ≤ audio_time) && decide (audio_time ≤ b)
     | _, _ => false)

/-- Second query of `find_sentence_at_time`:
`chapter_id = ? AND start_time <= ?`. -/
def startedBefore (chapter_id : Int) (audio_time : Rat) (s : Sentence) : Bool :=
  decide (s.chapter_id = chapter_id) &&
    (match s.start_time with
     | some a => decide (a ≤ audio_time)
     | none => false)

/-- Third query of `find_sentence_at_time`: `chapter_id = ?`. -/
def inChapter (chapter_id : Int) (s : Sentence) : Bool :=
  decide (s.chapter_id = chapter_id)

/-- Sort key used by `ORDER BY start_time DESC` (rows reaching it always have
a non-`NULL` `start_time`). -/
def startVal (s : Sentence) : Rat := s.start_time.getD 0

/-- Model of `find_sentence_at_time` (`src/bard/database.py`): containment match with
greatest `start_time`, else most recent started sentence, else first sentence
of the chapter by `sequence`, else `None`. -/
def find_sentence_at_time (db : List Sentence) (chapter_id : Int) (audio_time : Rat) :
    Option Sentence :=
  match selectFirstMax startVal (db.filter (matchesContainment chapter_id audio_time)) with
  | some s => some s
  | none =>
    match selectFirstMax startVal (db.filter (startedBefore chapter_id audio_time)) with
    | some s => some s
    | none => selectFirstMin Sentence.sequence (db.filter (inChapter chapter_id))

/-- Lexicographic `(chapter_id, sequence)` key of `ORDER BY chapter_id,
sequence`. -/
def leCS (a b : Sentence) : Bool :=
  decide (a.chapter_id < b.chapter_id) ||
    (decide (a.chapter_id = b.chapter_id) && decide (a.sequence ≤ b.sequence))

/-- Stable insertion into a list sorted by `leCS`. -/
def insertCS (x : Sentence) : List Sentence → List Sentence
  | [] => [x]
  | y :: ys => if leCS x y then x :: y :: ys else y :: insertCS x ys

/-- Stable sort by `(chapter_id, sequence)`, modelling
`ORDER BY chapter_id, sequence`. -/
def sortCS : List Sentence → List Sentence
  | [] => []
  | x :: xs => insertCS x (sortCS xs)

/-- Model of `get_context_sentences` (`src/bard/database.py`): all sentences with
`sentence_id <= up_to_sentence_id`, ordered by `(chapter_id, sequence)`. -/
def get_context_sentences (db : List Sentence) (up_to_sentence_id : Int) : List Sentence :=
  sortCS (db.filter (fun s => decide (s.sentence_id ≤ up_to_sentence_id)))

/- ### Context service (`src/bard/services/context.py`) -/

/-- Model of `resolve_current_sentence`: wraps `find_sentence_at_time`, raising
`ValueError` (modelled as `Except.error` with the message) when it returns
`None`. -/
def resolve_current_sentence (db : List Sentence) (chapter_id : Int) (audio_time : Rat) :
    Except (List Char) Sentence :=
  match find_sentence_at_time db chapter_id audio_time with
  | none =>
    .error ("Could not resolve sentence for chapter ".data ++ (toString chapter_id).data
      ++ " at ".data ++ (toString audio_time).data ++ "s".data)
  | some s => .ok s

/-- Chapter-boundary marker inserted by `build_context`:
`f"\n--- Chapter {chapter_id} ---\n"`. -/
def chapterHeader (chapter_id : Int) : List Char :=
  "\n--- Chapter ".data ++ (toString chapter_id).data ++ " ---\n".data

/-- Loop body of `build_context`: one part per sentence, with a chapter
header prepended whenever `sentence.chapter_id != current_chapter`. -/
def contextParts (current_chapter : Option Int) : List Sentence → List (List Char)
  | [] => []
  | s :: rest =>
    if current_chapter = some s.chapter_id then
      s.text :: contextParts current_chapter rest
    else
      chapterHeader s.chapter_id :: s.text :: contextParts (some s.chapter_id) rest

/-- The concatenated, header-annotated context text that `build_context`
assembles before truncation: `" ".join(context_parts)`. -/
def context_text (db : List Sentence) (current_sentence_id : Int) : List Char :=
  joinSp (contextParts none (get_context_sentences db current_sentence_id))

/-- The ellipsis marker `"... "` prefixed when no clean boundary is found. -/
def ellipsisMark : List Char := "... ".data

/-- Search pattern `"--- Chapter"` for a chapter boundary near the front. -/
def chapterPat : List Char := "--- Chapter".data

/-- Search pattern `". "` for a sentence boundary near the front. -/
def periodSpace : List Char := ". ".data

/-- Python `idx != -1 and idx < bound` on a `str.find` result. -/
def foundWithin (o : Option Nat) (bound : Nat) : Bool :=
  match o with
  | some i => decide (i < bound)
  | none => false

/-- Model of `truncate_to_tokens` (`src/bard/services/context.py`): keep the last
`max_tokens` tokens, then re-align the front to a chapter marker within the
first 200 characters, else to a `". "` sentence boundary within the first
100 characters, else prefix the ellipsis marker. -/
def truncate_to_tokens (encoding : TikEncoding) (text : List Char) (max_tokens : Nat) :
    List Char :=
  let tokens := encoding.encode text
  if tokens.length ≤ max_tokens then text
  else
    let truncated_text := encoding.decode (pySliceLast tokens max_tokens)
    let sentence_start := findSub periodSpace truncated_text
    let chapter_start := findSub chapterPat truncated_text
    if foundWithin chapter_start 200 then
      truncated_text.drop (chapter_start.getD 0)
    else if foundWithin sentence_start 100 then
      truncated_text.drop (sentence_start.getD 0 + 2)
    else
      ellipsisMark ++ truncated_text

/-- Model of `build_context` (`src/bard/services/context.py`): `max_tokens = None`
falls back to the configured default (`settings.max_context_tokens`, passed
here as `default_max_tokens`); an empty sentence list yields `""`; truncation
runs only under Python's `if max_tokens:` (i.e. a non-zero budget); the
result is `.strip()`ped. -/
def build_context (encoding : TikEncoding) (db : List Sentence) (current_sentence_id : Int)
    (max_tokens : Option Nat) (default_max_tokens : Nat) : List Char :=
  let maxT := max_tokens.getD default_max_tokens
  let sentences := get_context_sentences db current_sentence_id
  if sentences.isEmpty then []
  else
    let context := context_text db current_sentence_id
    let context := if maxT ≠ 0 then truncate_to_tokens encoding context maxT else context
    pyStrip context

/-- Stats dictionary returned by `get_context_stats`. -/
structure ContextStats where
  sentence_count : Nat
  chapter_count : Nat
  estimated_tokens : Nat
deriving DecidableEq, Repr

/-- Model of `get_context_stats` (`src/bard/services/context.py`): counts over the
context sentences; `estimated_tokens` is the token count of the sentence
texts joined by spaces (no chapter markers). -/
def get_context_stats (encoding : TikEncoding) (db : List Sentence)
    (current_sentence_id : Int) : ContextStats :=
  let sentences := get_context_sentences db current_sentence_id
  if sentences.isEmpty then ⟨0, 0, 0⟩
  else
    let chapters := (sentences.map Sentence.chapter_id).dedup
    let total_text := joinSp (sentences.map Sentence.text)
    ⟨sentences.length, chapters.length, (encoding.encode total_text).length⟩

/- ### Answer pipeline (`src/bard/api/routes/qa.py`) -/

/-- Outcome classes of a Python call: `ValueError` versus any other
`Exception` (the two classes `ask_question` distinguishes). -/
inductive PyErr where
  | valueError (msg : List Char)
  | otherError (msg : List Char)
deriving DecidableEq, Repr

/-- Request model `AskRequest` (`src/bard/models.py`). -/
structure AskRequest where
  question : List Char
  chapter_id : Int
  audio_time : Rat
deriving DecidableEq, Repr

/-- Response model `AskResponse` (`src/bard/models.py`). -/
structure AskResponse where
  answer : List Char
  audio_url : Option (List Char)
  current_sentence_id : Int
  context_sentence_count : Nat
deriving DecidableEq, Repr

/-- The `POST /ask` route `ask_question` (`src/bard/api/routes/qa.py`), with
the external LLM and speech-synthesis calls injected as outcomes.  An
`HTTPException` is modelled as `Except.error (status, detail)`.  Synthesis
`ValueError` re-raises as a 500 `"TTS error"`, any other synthesis exception
degrades to a `none` audio url. -/
def ask_question (encoding : TikEncoding) (db : List Sentence) (default_max_tokens : Nat)
    (request : AskRequest)
    (llm_result : Except PyErr (List Char)) (tts_result : Except PyErr (List Char)) :
    Except (Int × List Char) AskResponse :=
  match resolve_current_sentence db request.chapter_id request.audio_time with
  | .error e => .error (400, e)
  | .ok current_sentence =>
    let context := build_context encoding db current_sentence.sentence_id none default_max_tokens
    let context_stats := get_context_stats encoding db current_sentence.sentence_id
    if context.isEmpty then
      .error (400, "No narrative context available at this position".data)
    else
      match llm_result with
      | .error (.valueError m) => .error (500, "LLM error: ".data ++ m)
      | .error (.otherError m) => .error (500, "Failed to generate answer: ".data ++ m)
      | .ok answer_text =>
        match tts_result with
        | .ok audio_url =>
          .ok ⟨answer_text, some audio_url, current_sentence.sentence_id,
            context_stats.sentence_count⟩
        | .error (.valueError m) => .error (500, "TTS error: ".data ++ m)
        | .error (.otherError _) =>
          .ok ⟨answer_text, none, current_sentence.sentence_id,
            context_stats.sentence_count⟩

/-- Sortedness by the `(chapter_id, sequence)` key, used to reason about the
stable sort `sortCS`. -/
def SortedCS (l : List Sentence) : Prop :=
  List.Pairwise (fun a b => leCS a b = true) l

/- ### Concrete data: the fixture of `src/tests/test_context.py` -/

/-- Fixture sentence 1 of chapter 1, aligned to the interval 0 to 2. -/
def sFirst : Sentence := ⟨1, 1, 0, "First sentence.".data, some 0, some 2⟩

/-- Fixture sentence 2 of chapter 1, aligned to the interval 2 to 4. -/
def sSecond : Sentence := ⟨2, 1, 1, "Second sentence.".data, some 2, some 4⟩

/-- Fixture sentence 3 of chapter 1, aligned to the interval 4 to 6. -/
def sThird : Sentence := ⟨3, 1, 2, "Third sentence.".data, some 4, some 6⟩

/-- Fixture sentence 4 of chapter 2, aligned to the interval 0 to 3. -/
def sFourth : Sentence := ⟨4, 2, 0, "Fourth sentence.".data, some 0, some 3⟩

/-- Fixture sentence 5 of chapter 2, aligned to the interval 3 to 5. -/
def sFifth : Sentence := ⟨5, 2, 1, "Fifth sentence.".data, some 3, some 5⟩

/-- The five-sentence, two-chapter store of the repository's test fixture. -/
def dbFive : List Sentence := [sFirst, sSecond, sThird, sFourth, sFifth]

/- ### Helper lemmas: selection queries -/

/-- The first-maximal selection is empty exactly on the empty row set. -/
lemma selectFirstMax_eq_none {key : Sentence → Rat} {l : List Sentence} :
    selectFirstMax key l = none ↔ l = [] := by
  cases l with
  | nil => simp [selectFirstMax]
  | cons s rest =>
    cases h : selectFirstMax key rest with
    | none => simp [selectFirstMax, h]
    | some m =>
      simp only [selectFirstMax, h]
      by_cases hk : key m ≤ key s
      · rw [if_pos hk]; simp
      · rw [if_neg hk]; simp

/-- A first-maximal selection result is a row of the set. -/
lemma selectFirstMax_mem {key : Sentence → Rat} {l : List Sentence} {s : Sentence}
    (h : selectFirstMax key l = some s) : s ∈ l := by
  induction l generalizing s with
  | nil => simp [selectFirstMax] at h
  | cons a rest ih =>
    cases h' : selectFirstMax key rest with
    | none =>
      simp only [selectFirstMax, h'] at h
      cases h; simp
    | some m =>
      simp only [selectFirstMax, h'] at h
      by_cases hk : key m ≤ key a
      · rw [if_pos hk] at h; cases h; simp
      · rw [if_neg hk] at h; cases h
        exact List.mem_cons_of_mem _ (ih h')

/-- On a non-empty row set the first-maximal selection returns a row whose
key dominates every row's key. -/
lemma selectFirstMax_spec {key : Sentence → Rat} {l : List Sentence} (h : l ≠ []) :
    ∃ s, selectFirstMax key l = some s ∧ s ∈ l ∧ ∀ x ∈ l, key x ≤ key s := by
  induction l with
  | nil => exact absurd rfl h
  | cons a rest ih =>
    by_cases hr : rest = []
    · subst hr
      refine ⟨a, by simp [selectFirstMax], by simp, ?_⟩
      intro x hx
      rw [List.mem_singleton] at hx
      subst hx; exact le_refl _
    · obtain ⟨m, hm, hmem, hmax⟩ := ih hr
      simp only [selectFirstMax, hm]
      by_cases hk : key m ≤ key a
      · refine ⟨a, by rw [if_pos hk], by simp, ?_⟩
        intro x hx
        rcases List.mem_cons.mp hx with rfl | hx
        · exact le_refl _
        · exact le_trans (hmax x hx) hk
      · refine ⟨m, by rw [if_neg hk], List.mem_cons_of_mem _ hmem, ?_⟩
        intro x hx
        rcases List.mem_cons.mp hx with rfl | hx
        · exact le_of_not_le hk
        · exact hmax x hx

/-- The first-minimal selection is empty exactly on the empty row set. -/
lemma selectFirstMin_eq_none {key : Sentence → Int} {l : List Sentence} :
    selectFirstMin key l = none ↔ l = [] := by
  cases l with
  | nil => simp [selectFirstMin]
  | cons s rest =>
    cases h : selectFirstMin key rest with
    | none => simp [selectFirstMin, h]
    | some m =>
      simp only [selectFirstMin, h]
      by_cases hk : key s ≤ key m
      · rw [if_pos hk]; simp
      · rw [if_neg hk]; simp

/-- A first-minimal selection result is a row of the set. -/
lemma selectFirstMin_mem {key : Sentence → Int} {l : List Sentence} {s : Sentence}
    (h : selectFirstMin key l = some s) : s ∈ l := by
  induction l generalizing s with
  | nil => simp [selectFirstMin] at h
  | cons a rest ih =>
    cases h' : selectFirstMin key rest with
    | none =>
      simp only [selectFirstMin, h'] at h
      cases h; simp
    | some m =>
      simp only [selectFirstMin, h'] at h
      by_cases hk : key a ≤ key m
      · rw [if_pos hk] at h; cases h; simp
      · rw [if_neg hk] at h; cases h
        exact List.mem_cons_of_mem _ (ih h')

/-- A row selected by the containment query belongs to the queried chapter. -/
lemma chapter_of_matchesContainment {c : Int} {t : Rat} {s : Sentence}
    (h : matchesContainment c t s = true) : s.chapter_id = c := by
  simp only [matchesContainment, Bool.and_eq_true, decide_eq_true_eq] at h
  exact h.1

/-- A row selected by the started-before query belongs to the queried
chapter. -/
lemma chapter_of_startedBefore {c : Int} {t : Rat} {s : Sentence}
    (h : startedBefore c t s = true) : s.chapter_id = c := by
  simp only [startedBefore, Bool.and_eq_true, decide_eq_true_eq] at h
  exact h.1

/-- A row selected by the chapter query belongs to the queried chapter. -/
lemma chapter_of_inChapter {c : Int} {s : Sentence}
    (h : inChapter c s = true) : s.chapter_id = c := by
  simpa [inChapter] using h

/-- Position resolution comes back empty exactly when the chapter has no
sentences at all. -/
lemma find_sentence_at_time_eq_none_iff {db : List Sentence} {c : Int} {t : Rat} :
    find_sentence_at_time db c t = none ↔ ∀ s ∈ db, s.chapter_id ≠ c := by
  constructor
  · intro h s hs hc
    simp only [find_sentence_at_time] at h
    cases h1 : selectFirstMax startVal (db.filter (matchesContainment c t)) with
    | some m => rw [h1] at h; exact Option.noConfusion h
    | none =>
      rw [h1] at h
      cases h2 : selectFirstMax startVal (db.filter (startedBefore c t)) with
      | some m => rw [h2] at h; exact Option.noConfusion h
      | none =>
        rw [h2] at h
        have h3 := selectFirstMin_eq_none.mp h
        rw [List.filter_eq_nil_iff] at h3
        exact h3 s hs (by simp [inChapter, hc])
  · intro h
    have h1 : db.filter (matchesContainment c t) = [] :=
      List.filter_eq_nil_iff.mpr fun s hs hc => h s hs (chapter_of_matchesContainment hc)
    have h2 : db.filter (startedBefore c t) = [] :=
      List.filter_eq_nil_iff.mpr fun s hs hc => h s hs (chapter_of_startedBefore hc)
    have h3 : db.filter (inChapter c) = [] :=
      List.filter_eq_nil_iff.mpr fun s hs hc => h s hs (chapter_of_inChapter hc)
    simp [find_sentence_at_time, h1, h2, h3, selectFirstMax, selectFirstMin]

/-- A resolved sentence is a stored sentence of the queried chapter. -/
lemma find_sentence_at_time_mem {db : List Sentence} {c : Int} {t : Rat} {s : Sentence}
    (h : find_sentence_at_time db c t = some s) : s ∈ db ∧ s.chapter_id = c := by
  simp only [find_sentence_at_time] at h
  cases h1 : selectFirstMax startVal (db.filter (matchesContainment c t)) with
  | some m =>
    rw [h1] at h
    cases h
    have hm := List.mem_filter.mp (selectFirstMax_mem h1)
    exact ⟨hm.1, chapter_of_matchesContainment hm.2⟩
  | none =>
    rw [h1] at h
    cases h2 : selectFirstMax startVal (db.filter (startedBefore c t)) with
    | some m =>
      rw [h2] at h
      cases h
      have hm := List.mem_filter.mp (selectFirstMax_mem h2)
      exact ⟨hm.1, chapter_of_startedBefore hm.2⟩
    | none =>
      rw [h2] at h
      have hm := List.mem_filter.mp (selectFirstMin_mem h)
      exact ⟨hm.1, chapter_of_inChapter hm.2⟩

/-- C3: for every chapter with at least one sentence and every rational
`audio_time` (negative and beyond-end values included, aligned or not),
`resolve_current_sentence` returns a stored sentence of that chapter; when
the chapter has zero sentences it fails with the `ValueError` message.
Together the two directions say resolution fails exactly on empty chapters. -/
theorem C3_resolution_totality (db : List Sentence) (c : Int) (t : Rat) :
    ((∃ s ∈ db, s.chapter_id = c) →
      ∃ s, resolve_current_sentence db c t = .ok s ∧ s ∈ db ∧ s.chapter_id = c) ∧
    ((∀ s ∈ db, s.chapter_id ≠ c) →
      ∃ m, resolve_current_sentence db c t = .error m) := by
  constructor
  · rintro ⟨s0, hs0, hc0⟩
    cases hf : find_sentence_at_time db c t with
    | none =>
      rw [find_sentence_at_time_eq_none_iff] at hf
      exact absurd hc0 (hf s0 hs0)
    | some s =>
      obtain ⟨hmem, hch⟩ := find_sentence_at_time_mem hf
      exact ⟨s, by simp [resolve_current_sentence, hf], hmem, hch⟩
  · intro h
    have hf : find_sentence_at_time db c t = none := find_sentence_at_time_eq_none_iff.mpr h
    exact ⟨_, by unfold resolve_current_sentence; rw [hf]⟩

/-- Witness for C3: a far-out-of-range time (-7) still resolves inside the
non-empty fixture chapter 1, and the empty store fails. -/
theorem C3_resolution_totality_witness :
    (∃ s, resolve_current_sentence dbFive 1 (-7) = .ok s ∧ s ∈ dbFive ∧ s.chapter_id = 1) ∧
    (∃ m, resolve_current_sentence ([] : List Sentence) 1 0 = .error m) :=
  ⟨(C3_resolution_totality dbFive 1 (-7)).1 (by decide),
   (C3_resolution_totality [] 1 0).2 (by simp)⟩

/-- C5: whenever some aligned sentence of the queried chapter contains
`audio_time` in its interval, resolution returns a containment match whose
`start_time` is greatest among all containment matches (so at a shared
boundary instant it returns the later sentence, the one starting there). -/
theorem C5_containment_greatest_start (db : List Sentence) (c : Int) (t : Rat)
    (m : Sentence) (hm : m ∈ db) (hmc : matchesContainment c t m = true) :
    ∃ s, find_sentence_at_time db c t = some s ∧ s ∈ db ∧
      matchesContainment c t s = true ∧
      ∀ x ∈ db, matchesContainment c t x = true → startVal x ≤ startVal s := by
  have hne : db.filter (matchesContainment c t) ≠ [] := by
    intro h0
    have hmf : m ∈ db.filter (matchesContainment c t) := List.mem_filter.mpr ⟨hm, hmc⟩
    rw [h0] at hmf
    exact List.not_mem_nil m hmf
  obtain ⟨s, hs, hmem, hmax⟩ := selectFirstMax_spec hne
  refine ⟨s, ?_, (List.mem_filter.mp hmem).1, (List.mem_filter.mp hmem).2, ?_⟩
  · unfold find_sentence_at_time
    rw [hs]
  · intro x hx hxc
    exact hmax x (List.mem_filter.mpr ⟨hx, hxc⟩)

/-- Witness for C5 at the exact boundary instant 2 shared by the fixture's
first two sentences: resolution picks the second (later) sentence, the
containment match with the greatest `start_time`. -/
theorem C5_containment_greatest_start_witness :
    (find_sentence_at_time dbFive 1 2 = some sSecond ∧ sSecond ∈ dbFive ∧
      matchesContainment 1 2 sSecond = true) ∧
    ∃ s, find_sentence_at_time dbFive 1 2 = some s ∧ s ∈ dbFive ∧
      matchesContainment 1 2 s = true ∧
      ∀ x ∈ dbFive, matchesContainment 1 2 x = true → startVal x ≤ startVal s :=
  ⟨by decide, C5_containment_greatest_start dbFive 1 2 sSecond (by decide) (by decide)⟩

/- ### Helper lemmas: the stable sort of `get_context_sentences` -/

/-- The `(chapter_id, sequence)` key order is total. -/
lemma leCS_total (a b : Sentence) : leCS a b = true ∨ leCS b a = true := by
  simp only [leCS, Bool.or_eq_true, Bool.and_eq_true, decide_eq_true_eq]
  omega

/-- The `(chapter_id, sequence)` key order is transitive. -/
lemma leCS_trans {a b c : Sentence} (h1 : leCS a b = true) (h2 : leCS b c = true) :
    leCS a c = true := by
  simp only [leCS, Bool.or_eq_true, Bool.and_eq_true, decide_eq_true_eq] at h1 h2 ⊢
  omega

/-- Membership through a stable insertion. -/
lemma mem_insertCS {a x : Sentence} {l : List Sentence} :
    a ∈ insertCS x l ↔ a = x ∨ a ∈ l := by
  induction l with
  | nil => simp [insertCS]
  | cons y ys ih =>
    simp only [insertCS]
    by_cases h : leCS x y = true
    · rw [if_pos h]
      simp [List.mem_cons]
    · rw [if_neg h]
      simp only [List.mem_cons, ih]
      tauto

/-- Membership through the stable sort. -/
lemma mem_sortCS {a : Sentence} {l : List Sentence} : a ∈ sortCS l ↔ a ∈ l := by
  induction l with
  | nil => simp [sortCS]
  | cons x xs ih => simp [sortCS, mem_insertCS, ih]

/-- Inserting an element below the whole list puts it in front. -/
lemma insertCS_all_le {x : Sentence} {l : List Sentence}
    (h : ∀ z ∈ l, leCS x z = true) : insertCS x l = x :: l := by
  cases l with
  | nil => rfl
  | cons y ys =>
    simp only [insertCS]
    rw [if_pos (h y (by simp))]

/-- Stable insertion preserves sortedness. -/
lemma sorted_insertCS {x : Sentence} {l : List Sentence} (h : SortedCS l) :
    SortedCS (insertCS x l) := by
  induction l with
  | nil => simp [insertCS, SortedCS]
  | cons y ys ih =>
    rw [SortedCS, List.pairwise_cons] at h
    obtain ⟨hy, hys⟩ := h
    by_cases hxy : leCS x y = true
    · rw [insertCS, if_pos hxy, SortedCS, List.pairwise_cons]
      refine ⟨?_, List.pairwise_cons.mpr ⟨hy, hys⟩⟩
      intro z hz
      rcases List.mem_cons.mp hz with rfl | hz
      · exact hxy
      · exact leCS_trans hxy (hy z hz)
    · rw [insertCS, if_neg hxy, SortedCS, List.pairwise_cons]
      refine ⟨?_, ih hys⟩
      intro z hz
      rcases mem_insertCS.mp hz with rfl | hz
      · rcases leCS_total z y with h' | h'
        · exact absurd h' hxy
        · exact h'
      · exact hy z hz

/-- The sort output is sorted. -/
lemma sorted_sortCS (l : List Sentence) : SortedCS (sortCS l) := by
  induction l with
  | nil => simp [sortCS, SortedCS]
  | cons x xs ih => exact sorted_insertCS ih

/-- Filtering commutes with inserting into a sorted list. -/
lemma filter_insertCS (p : Sentence → Bool) {x : Sentence} {l : List Sentence}
    (h : SortedCS l) :
    (insertCS x l).filter p =
      if p x then insertCS x (l.filter p) else l.filter p := by
  induction l with
  | nil =>
    cases hpx : p x <;> simp [insertCS, List.filter_cons, hpx]
  | cons y ys ih =>
    rw [SortedCS, List.pairwise_cons] at h
    obtain ⟨hy, hys⟩ := h
    by_cases hxy : leCS x y = true
    · rw [insertCS, if_pos hxy]
      cases hpx : p x with
      | true =>
        have hall : ∀ z ∈ (y :: ys).filter p, leCS x z = true := by
          intro z hz
          rcases List.mem_cons.mp (List.mem_filter.mp hz).1 with rfl | hz'
          · exact hxy
          · exact leCS_trans hxy (hy z hz')
        rw [List.filter_cons_of_pos hpx, if_pos rfl, insertCS_all_le hall]
      | false =>
        rw [List.filter_cons_of_neg (by simp [hpx]), if_neg (by simp [hpx])]
    · rw [insertCS, if_neg hxy]
      cases hpy : p y with
      | true =>
        rw [List.filter_cons_of_pos hpy, List.filter_cons_of_pos hpy, ih hys]
        cases hpx : p x with
        | true =>
          rw [if_pos rfl, if_pos rfl, insertCS, if_neg hxy]
        | false =>
          rw [if_neg (by simp), if_neg (by simp)]
      | false =>
        rw [List.filter_cons_of_neg (by simp [hpy]), List.filter_cons_of_neg (by simp [hpy]),
          ih hys]

/-- Filtering commutes with the stable sort (stability makes the two orders
agree). -/
lemma sortCS_filter (p : Sentence → Bool) (l : List Sentence) :
    sortCS (l.filter p) = (sortCS l).filter p := by
  induction l with
  | nil => rfl
  | cons x xs ih =>
    rw [List.filter_cons]
    cases hpx : p x with
    | true =>
      rw [if_pos (by simp), sortCS, sortCS, filter_insertCS p (sorted_sortCS xs), if_pos (by
        simp [hpx]), ih]
    | false =>
      rw [if_neg (by simp), sortCS, filter_insertCS p (sorted_sortCS xs), if_neg (by
        simp [hpx]), ih]

/-- The context window only grows: a later cutoff keeps every earlier
sentence. -/
lemma get_context_sentences_mono {db : List Sentence} {id1 id2 : Int} (h : id1 ≤ id2) :
    get_context_sentences db id1 =
      (get_context_sentences db id2).filter (fun s => decide (s.sentence_id ≤ id1)) := by
  unfold get_context_sentences
  rw [← sortCS_filter, List.filter_filter]
  congr 1
  apply List.filter_congr
  intro a _
  by_cases h1 : a.sentence_id ≤ id1
  · simp [h1, le_trans h1 h]
  · simp [h1]

/-- C8: for sentence ids `id1 < id2` every sentence of `assemble(id1)` also
appears in `assemble(id2)`, in the same relative order (the first context's
sentence list is a sublist of the second's). -/
theorem C8_context_monotonic_inclusion (db : List Sentence) (id1 id2 : Int)
    (h : id1 < id2) :
    List.Sublist (get_context_sentences db id1) (get_context_sentences db id2) := by
  rw [get_context_sentences_mono (le_of_lt h)]
  exact List.filter_sublist _

/-- Witness for C8 on the fixture store with cutoffs 1 < 3. -/
theorem C8_context_monotonic_inclusion_witness :
    List.Sublist (get_context_sentences dbFive 1) (get_context_sentences dbFive 3) :=
  C8_context_monotonic_inclusion dbFive 1 3 (by decide)

/- ### Claims on empty context, future leakage, zero budget -/

/-- C9: when no stored sentence has id at most `N` (e.g. `N = 0`), context
assembly returns the empty text and the stats report zero counts and zero
tokens; both functions are total, so no error is possible. -/
theorem C9_empty_context (encoding : TikEncoding) (db : List Sentence) (N : Int)
    (max_tokens : Option Nat) (d : Nat)
    (h : ∀ s ∈ db, ¬ s.sentence_id ≤ N) :
    build_context encoding db N max_tokens d = [] ∧
    get_context_stats encoding db N = ⟨0, 0, 0⟩ := by
  have hf : db.filter (fun s => decide (s.sentence_id ≤ N)) = [] :=
    List.filter_eq_nil_iff.mpr (by intro a ha; simp [h a ha])
  have hg : get_context_sentences db N = [] := by
    rw [get_context_sentences, hf]
    rfl
  constructor
  · simp [build_context, hg]
  · simp [get_context_stats, hg]

/-- Witness for C9: cutoff 0 on the fixture store yields the empty context
and all-zero stats. -/
theorem C9_empty_context_witness :
    build_context charEncoding dbFive 0 none 100000 = [] ∧
    get_context_stats charEncoding dbFive 0 = ⟨0, 0, 0⟩ :=
  C9_empty_context charEncoding dbFive 0 none 100000 (by decide)

/-- C10: an explicit token budget of 0 disables truncation — `build_context`
returns the full (stripped) context text whatever its token count — while
only `max_tokens = None` falls back to the configured default budget. -/
theorem C10_zero_budget_disables_truncation (encoding : TikEncoding) (db : List Sentence)
    (N : Int) (d : Nat) :
    build_context encoding db N (some 0) d = pyStrip (context_text db N) ∧
    build_context encoding db N none d = build_context encoding db N (some d) d := by
  constructor
  · by_cases hg : get_context_sentences db N = []
    · simp [build_context, context_text, hg, contextParts, joinSp, pyStrip]
    · have hne : (get_context_sentences db N).isEmpty = false :=
        List.isEmpty_eq_false.mpr hg
      simp [build_context, hne]
  · rfl

/-- The cutoff filter is idempotent: running the assembler on the
already-filtered store yields the same context sentences. -/
lemma get_context_sentences_filter_self (db : List Sentence) (N : Int) :
    get_context_sentences (db.filter (fun s => decide (s.sentence_id ≤ N))) N =
      get_context_sentences db N := by
  unfold get_context_sentences
  rw [List.filter_filter]
  congr 1
  apply List.filter_congr
  intro a _
  by_cases h1 : a.sentence_id ≤ N <;> simp [h1]

/-- C4: context assembly never includes future material — every sentence of
the assembled context has id at most `N`, and the produced text (for any
budget) is unchanged when all sentences with id greater than `N` are removed
from the store, so no such sentence can contribute text. -/
theorem C4_no_future_leakage (encoding : TikEncoding) (db : List Sentence) (N : Int)
    (max_tokens : Option Nat) (d : Nat) :
    (∀ s ∈ get_context_sentences db N, s.sentence_id ≤ N) ∧
    build_context encoding db N max_tokens d =
      build_context encoding (db.filter (fun s => decide (s.sentence_id ≤ N))) N
        max_tokens d := by
  constructor
  · intro s hs
    unfold get_context_sentences at hs
    have hm := (List.mem_filter.mp (mem_sortCS.mp hs)).2
    simpa using hm
  · simp only [build_context, context_text, get_context_sentences_filter_self]

/-- Witness for C4 on the fixture store at cutoff 2. -/
theorem C4_no_future_leakage_witness :
    sSecond.sentence_id ≤ (2 : Int) ∧
    build_context charEncoding dbFive 2 none 100000 =
      build_context charEncoding (dbFive.filter (fun s => decide (s.sentence_id ≤ 2))) 2
        none 100000 :=
  ⟨(C4_no_future_leakage charEncoding dbFive 2 none 100000).1 sSecond (by decide),
   (C4_no_future_leakage charEncoding dbFive 2 none 100000).2⟩

/- ### Helper lemmas: character tokenizer and text lengths -/

/-- Under the character stand-in, the token count of a text is its length. -/
lemma charEncoding_encode_length (t : List Char) :
    (charEncoding.encode t).length = t.length := by
  simp [charEncoding]

/-- Under the character stand-in, decoding preserves the token count. -/
lemma charEncoding_decode_length (ts : List Nat) :
    (charEncoding.decode ts).length = ts.length := by
  simp [charEncoding]

/-- Keeping the last `n` of more than `n` tokens keeps exactly `n`. -/
lemma pySliceLast_length {l : List Nat} {n : Nat} (hn : n ≠ 0) (h : n < l.length) :
    (pySliceLast l n).length = n := by
  rw [pySliceLast, if_neg hn, List.length_drop]
  omega

/-- C1 (amended): the token count of `truncate_to_tokens(text, max_tokens)`
is at most `max_tokens` plus the tokens of the ellipsis marker `"... "`; the
original bound `max_tokens` itself fails because the marker is prefixed after
the slice already holds exactly `max_tokens` tokens (character stand-in for
the injected tokenizer). -/
theorem C1_truncation_bound_amended (text : List Char) (max_tokens : Nat)
    (h : 0 < max_tokens) :
    (charEncoding.encode (truncate_to_tokens charEncoding text max_tokens)).length ≤
      max_tokens + ellipsisMark.length := by
  simp only [truncate_to_tokens]
  by_cases hle : (charEncoding.encode text).length ≤ max_tokens
  · rw [if_pos hle, charEncoding_encode_length]
    rw [charEncoding_encode_length] at hle
    omega
  · rw [if_neg hle]
    have hT : (charEncoding.decode (pySliceLast (charEncoding.encode text)
        max_tokens)).length = max_tokens := by
      rw [charEncoding_decode_length, pySliceLast_length (by omega)]
      omega
    by_cases hc : foundWithin (findSub chapterPat (charEncoding.decode
        (pySliceLast (charEncoding.encode text) max_tokens))) 200 = true
    · rw [if_pos hc, charEncoding_encode_length, List.length_drop]
      omega
    · rw [if_neg hc]
      by_cases hs : foundWithin (findSub periodSpace (charEncoding.decode
          (pySliceLast (charEncoding.encode text) max_tokens))) 100 = true
      · rw [if_pos hs, charEncoding_encode_length, List.length_drop]
        omega
      · rw [if_neg hs, charEncoding_encode_length, List.length_append]
        omega

/-- Witness for the amended C1 bound at a concrete text and budget 3. -/
theorem C1_truncation_bound_amended_witness :
    0 < 3 ∧
    (charEncoding.encode (truncate_to_tokens charEncoding "abcdefghij".data 3)).length ≤
      3 + ellipsisMark.length :=
  ⟨by decide, C1_truncation_bound_amended "abcdefghij".data 3 (by decide)⟩

/-- Counterexample to C1 as stated: truncating a ten-character text to a
budget of 3 tokens returns `"... hij"`, whose token count 7 exceeds the
budget — the ellipsis marker is prefixed on top of the full budget. -/
theorem C1_truncation_bound_counterexample :
    0 < 3 ∧
    ¬ (charEncoding.encode
        (truncate_to_tokens charEncoding "abcdefghij".data 3)).length ≤ 3 := by
  decide

/- ### Helper lemmas: joined context text lengths -/

/-- Length of a space-join with a non-empty tail. -/
lemma joinSp_length_cons (x : List Char) (xs : List (List Char)) (h : xs ≠ []) :
    (joinSp (x :: xs)).length = x.length + 1 + (joinSp xs).length := by
  cases xs with
  | nil => exact absurd rfl h
  | cons y ys =>
    simp only [joinSp, List.length_append, List.length_cons]
    omega

/-- The header-free join of the sentence texts is never longer than the join
of the header-annotated context parts. -/
lemma joinSp_map_text_le :
    ∀ (l : List Sentence) (cur : Option Int) (x : List Char),
      (joinSp (x :: l.map Sentence.text)).length ≤
        (joinSp (x :: contextParts cur l)).length := by
  intro l
  induction l with
  | nil => intro cur x; simp [contextParts]
  | cons s rest ih =>
    intro cur x
    rw [List.map_cons]
    by_cases hc : cur = some s.chapter_id
    · rw [contextParts, if_pos hc]
      rw [joinSp_length_cons x _ (by simp), joinSp_length_cons x _ (by simp)]
      have hi := ih cur s.text
      omega
    · rw [contextParts, if_neg hc]
      rw [joinSp_length_cons x _ (by simp), joinSp_length_cons x _ (by simp),
        joinSp_length_cons (chapterHeader s.chapter_id) _ (by simp)]
      have hi := ih (some s.chapter_id) s.text
      omega

/-- C7 (amended): `estimated_tokens` in the stats is the tokenizer count of
the sentence texts joined by spaces, without the chapter markers that the
truncation text carries; for every non-empty context it is strictly smaller
than the token count `build_context` compares against the budget, so one
count does not serve both (character stand-in tokenizer). -/
theorem C7_stats_tokens_amended (db : List Sentence) (N : Int)
    (h : get_context_sentences db N ≠ []) :
    (get_context_stats charEncoding db N).estimated_tokens <
      (charEncoding.encode (context_text db N)).length := by
  obtain ⟨s, rest, hsr⟩ : ∃ s rest, get_context_sentences db N = s :: rest := by
    cases hg : get_context_sentences db N with
    | nil => exact absurd hg h
    | cons a l => exact ⟨a, l, rfl⟩
  simp only [get_context_stats, context_text, hsr, List.isEmpty_cons, Bool.false_eq_true,
    if_false, List.map_cons]
  rw [charEncoding_encode_length, charEncoding_encode_length]
  rw [contextParts, if_neg (by simp)]
  rw [joinSp_length_cons (chapterHeader s.chapter_id) _ (by simp)]
  have hi := joinSp_map_text_le rest (some s.chapter_id) s.text
  have hhd : 0 < (chapterHeader s.chapter_id).length := by
    simp [chapterHeader]
  omega

/-- Witness for the amended C7 at the fixture store, cutoff 1. -/
theorem C7_stats_tokens_amended_witness :
    get_context_sentences dbFive 1 ≠ [] ∧
    (get_context_stats charEncoding dbFive 1).estimated_tokens <
      (charEncoding.encode (context_text dbFive 1)).length :=
  ⟨by decide, C7_stats_tokens_amended dbFive 1 (by decide)⟩

/-- Counterexample to C7 as stated: at the fixture store with cutoff 1 the
stats count 15 (text `"First sentence."`) differs from the count 35 of the
marker-annotated text the truncation step compares against the budget. -/
theorem C7_stats_tokens_counterexample :
    (get_context_stats charEncoding dbFive 1).estimated_tokens ≠
      (charEncoding.encode (context_text dbFive 1)).length := by
  decide

/- ### Helper lemmas: substring preservation through strip -/

/-- Every context part built for a stored sentence carries that sentence's
text. -/
lemma text_mem_contextParts :
    ∀ (l : List Sentence) (cur : Option Int) {s : Sentence}, s ∈ l →
      s.text ∈ contextParts cur l := by
  intro l
  induction l with
  | nil => intro cur s h; simp at h
  | cons a rest ih =>
    intro cur s h
    rcases List.mem_cons.mp h with rfl | h'
    · by_cases hc : cur = some s.chapter_id
      · rw [contextParts, if_pos hc]; simp
      · rw [contextParts, if_neg hc]; simp
    · by_cases hc : cur = some a.chapter_id
      · rw [contextParts, if_pos hc]
        exact List.mem_cons_of_mem _ (ih cur h')
      · rw [contextParts, if_neg hc]
        exact List.mem_cons_of_mem _ (List.mem_cons_of_mem _ (ih _ h'))

/-- Every part occurs contiguously inside the space-join of the parts. -/
lemma isInfix_joinSp {x : List Char} :
    ∀ parts : List (List Char), x ∈ parts → List.IsInfix x (joinSp parts) := by
  intro parts
  induction parts with
  | nil => intro h; simp at h
  | cons y ys ih =>
    intro h
    cases ys with
    | nil =>
      rw [List.mem_singleton] at h
      subst h
      exact List.infix_rfl
    | cons z zs =>
      rcases List.mem_cons.mp h with rfl | h'
      · exact ⟨[], ' ' :: joinSp (z :: zs), by simp [joinSp]⟩
      · refine List.IsInfix.trans (ih h') ⟨y ++ [' '], [], ?_⟩
        simp [joinSp]

/-- A contiguous occurrence with a non-whitespace first character survives
dropping leading whitespace. -/
lemma isInfix_dropWhile_front {t c : List Char} (h : List.IsInfix t c) (ht : t ≠ [])
    (hh : ∀ ch, t.head? = some ch → wsChar ch = false) :
    List.IsInfix t (c.dropWhile wsChar) := by
  obtain ⟨p, q, rfl⟩ := h
  induction p with
  | nil =>
    cases t with
    | nil => exact absurd rfl ht
    | cons ch tl =>
      have hch : wsChar ch = false := hh ch rfl
      simp only [List.nil_append, List.cons_append, List.dropWhile_cons, hch,
        Bool.false_eq_true, if_false]
      exact ⟨[], q, by simp⟩
  | cons a p' ih =>
    simp only [List.cons_append, List.dropWhile_cons]
    by_cases ha : wsChar a = true
    · rw [if_pos ha]
      exact ih
    · rw [if_neg ha]
      exact ⟨a :: (p' ++ []), q, by simp⟩

/-- A contiguous occurrence whose first and last characters are not
whitespace survives Python's `str.strip()`. -/
lemma isInfix_pyStrip {t c : List Char} (h : List.IsInfix t c) (ht : t ≠ [])
    (hh : ∀ ch, t.head? = some ch → wsChar ch = false)
    (hl : ∀ ch, t.getLast? = some ch → wsChar ch = false) :
    List.IsInfix t (pyStrip c) := by
  have h1 : List.IsInfix t (c.dropWhile wsChar) := isInfix_dropWhile_front h ht hh
  have h2 : List.IsInfix t.reverse (c.dropWhile wsChar).reverse :=
    List.IsInfix.reverse h1
  have h3 : List.IsInfix t.reverse ((c.dropWhile wsChar).reverse.dropWhile wsChar) := by
    refine isInfix_dropWhile_front h2 (by simpa using ht) ?_
    intro ch hch
    rw [List.head?_reverse] at hch
    exact hl ch hch
  have h4 := List.IsInfix.reverse h3
  rw [List.reverse_reverse] at h4
  unfold pyStrip
  exact h4

/-- C6 (amended): the truncated context contains the full text of the
current sentence `N` provided the whole annotated context fits the budget
(and the sentence text has no whitespace at its ends, so stripping cannot
clip it); the unconditional claim fails when the budget is smaller than the
current sentence itself. -/
theorem C6_truncation_recency_amended (db : List Sentence) (N : Int) (budget d : Nat)
    (s : Sentence) (hs : s ∈ db) (hid : s.sentence_id = N) (hb : 0 < budget)
    (hfit : (charEncoding.encode (context_text db N)).length ≤ budget)
    (ht : s.text ≠ [])
    (hh : s.text.head?.all (fun ch => !wsChar ch) = true)
    (hl : s.text.getLast?.all (fun ch => !wsChar ch) = true) :
    List.IsInfix s.text (build_context charEncoding db N (some budget) d) := by
  have hmem : s ∈ get_context_sentences db N := by
    unfold get_context_sentences
    rw [mem_sortCS, List.mem_filter]
    exact ⟨hs, by simp [hid]⟩
  have hne : (get_context_sentences db N).isEmpty = false :=
    List.isEmpty_eq_false.mpr (List.ne_nil_of_mem hmem)
  have hbne : budget ≠ 0 := Nat.pos_iff_ne_zero.mp hb
  have htrunc : truncate_to_tokens charEncoding (context_text db N) budget
      = context_text db N := by
    simp only [truncate_to_tokens]
    rw [if_pos hfit]
  have hresult : build_context charEncoding db N (some budget) d
      = pyStrip (context_text db N) := by
    simp only [build_context, Option.getD_some, hne, Bool.false_eq_true, if_false]
    rw [if_pos hbne, htrunc]
  rw [hresult]
  have hin : List.IsInfix (Sentence.text s) (context_text db N) := by
    unfold context_text
    exact isInfix_joinSp _ (text_mem_contextParts _ none hmem)
  refine isInfix_pyStrip hin ht ?_ ?_
  · intro ch hch
    rw [hch] at hh
    simpa using hh
  · intro ch hch
    rw [hch] at hl
    simpa using hl

/-- Witness for the amended C6: with a budget of 1000 the fixture context at
cutoff 5 keeps the fifth sentence's full text. -/
theorem C6_truncation_recency_amended_witness :
    (sFifth ∈ dbFive ∧ sFifth.sentence_id = 5 ∧ 0 < 1000 ∧
      (charEncoding.encode (context_text dbFive 5)).length ≤ 1000) ∧
    List.IsInfix sFifth.text (build_context charEncoding dbFive 5 (some 1000) 100000) :=
  ⟨by decide, C6_truncation_recency_amended dbFive 5 1000 100000 sFifth (by decide) (by decide)
    (by decide) (by decide) (by decide) (by decide) (by decide)⟩

/-- Counterexample to C6 as stated: at cutoff 1 with budget 1 (a positive
budget smaller than the current sentence) the result is `"... ."` and the
text of sentence 1 is gone. -/
theorem C6_truncation_recency_counterexample :
    (0 < 1 ∧ sFirst ∈ dbFive ∧ sFirst.sentence_id = 1 ∧
      build_context charEncoding dbFive 1 (some 1) 100000 ≠ []) ∧
    ¬ List.IsInfix sFirst.text (build_context charEncoding dbFive 1 (some 1) 100000) := by
  decide

/- ### Claim on the answer pipeline's synthesis-failure handling -/

/-- C2 (amended): when resolution succeeds, the context is non-empty and
generation succeeds, a synthesis failure that is not a `ValueError` degrades
gracefully — the pipeline returns the generated answer with a `none` audio
locator — but a synthesis `ValueError` (missing ElevenLabs configuration)
fails the whole request with a 500 `"TTS error"`; so not every synthesis
failure is downgraded. -/
theorem C2_synthesis_degradation_amended (encoding : TikEncoding) (db : List Sentence)
    (d : Nat) (request : AskRequest) (cur : Sentence) (answer m : List Char)
    (hres : resolve_current_sentence db request.chapter_id request.audio_time = .ok cur)
    (hctx : build_context encoding db cur.sentence_id none d ≠ []) :
    ask_question encoding db d request (.ok answer) (.error (.otherError m)) =
      .ok ⟨answer, none, cur.sentence_id,
        (get_context_stats encoding db cur.sentence_id).sentence_count⟩ ∧
    ask_question encoding db d request (.ok answer) (.error (.valueError m)) =
      .error (500, "TTS error: ".data ++ m) := by
  have hctx' : (build_context encoding db cur.sentence_id none d).isEmpty = false :=
    List.isEmpty_eq_false.mpr hctx
  constructor <;>
    simp only [ask_question, hres, hctx', Bool.false_eq_true, if_false]

/-- Witness for the amended C2 on the fixture store: a non-`ValueError`
synthesis failure still returns the answer text, a `ValueError` yields 500. -/
theorem C2_synthesis_degradation_amended_witness :
    ask_question charEncoding dbFive 100000 ⟨"q".data, 1, 1⟩ (.ok "Ans".data)
        (.error (.otherError "boom".data)) =
      .ok ⟨"Ans".data, none, sFirst.sentence_id,
        (get_context_stats charEncoding dbFive sFirst.sentence_id).sentence_count⟩ ∧
    ask_question charEncoding dbFive 100000 ⟨"q".data, 1, 1⟩ (.ok "Ans".data)
        (.error (.valueError "boom".data)) =
      .error (500, "TTS error: ".data ++ "boom".data) :=
  C2_synthesis_degradation_amended charEncoding dbFive 100000 ⟨"q".data, 1, 1⟩ sFirst
    "Ans".data "boom".data (by rfl) (by decide)

/-- Counterexample to C2 as stated: with resolution, assembly and generation
all succeeding, a synthesis failure of class `ValueError` (as raised by
`synthesize_answer` when `ELEVENLABS_VOICE_ID` is unset) does not return the
text answer with a null audio locator — it fails the request with HTTP 500. -/
theorem C2_synthesis_valueerror_counterexample :
    ask_question charEncoding dbFive 100000 ⟨"q".data, 1, 1⟩ (.ok "Ans".data)
        (.error (.valueError "ELEVENLABS_VOICE_ID not set in environment".data)) =
      .error (500, "TTS error: ELEVENLABS_VOICE_ID not set in environment".data) := by
  rfl
